import Mathlib

/-!
Shallow embedding of the SA-Media Data-Pipeline repository
(src/main.py, src/xml_handler.py, src/file_tracker.py, src/document_processor.py)
and proofs about the claims of its specification.

Modelling conventions:
* Python `xml.etree.ElementTree` elements become the inductive `Pipeline.Element`
  (tag, attribute association list in insertion order, optional text, optional
  tail, list of children).  `Element.set` replaces an existing attribute in
  place, as a Python dict update does.
* File-system timestamps (`os.path.getmtime`) become rationals (`Rat`); the
  file system is an explicit record of `fileExists` and `mtime` functions.
* The third-party readers (PyPDF2, python-docx, the expat XML parser, the
  json parser) are external collaborators: they are parameters of the
  embedded functions, valued in `Except`/`Option` describing their outcome.
* Python exceptions become explicit `Except`/`Option String` error values;
  a raise that occurs before any mutation leaves the embedded state
  untouched, exactly as in the source.
-/

set_option autoImplicit false

namespace Pipeline

/-- Python dict assignment `m[k] = v` on an association list: an existing key
is updated in place (keeping its position), a new key is appended at the end,
matching CPython insertion-order semantics. -/
def dictSet {α : Type} (m : List (String × α)) (k : String) (v : α) :
    List (String × α) :=
  if m.any (fun p => p.1 == k) then
    m.map (fun p => if p.1 == k then (k, v) else p)
  else
    m ++ [(k, v)]

/-- Python `str.lower()` (ASCII case mapping, character by character; the
paths, extensions and folder names the pipeline compares are ASCII). -/
def pyLower (s : String) : String := String.mk (s.toList.map Char.toLower)

/-- Python whitespace characters recognised by `str.strip()` (ASCII part). -/
def isPySpace (c : Char) : Bool :=
  c == ' ' || c == '\t' || c == '\n' || c == '\r' || c == '\x0b' || c == '\x0c'

/-- Python `str.strip()`: remove leading and trailing whitespace. -/
def pyStrip (s : String) : String :=
  String.mk (((s.toList.dropWhile isPySpace).reverse.dropWhile
    isPySpace).reverse)

/-- Python `subdir.replace("\\", "/")`: normalise path separators. -/
def pyNormSep (s : String) : String :=
  String.mk (s.toList.map (fun c => if c == '\\' then '/' else c))

/-- XML element tree, mirroring `xml.etree.ElementTree.Element`: a tag, the
attributes in insertion order, the optional `.text`, the optional `.tail`,
and the list of child elements. -/
inductive Element : Type where
  | mk : String → List (String × String) → Option String → Option String →
      List Element → Element

/-- Tag of an element. -/
def Element.tag : Element → String
  | .mk t _ _ _ _ => t

/-- Attribute list of an element (insertion order). -/
def Element.attrs : Element → List (String × String)
  | .mk _ a _ _ _ => a

/-- Text of an element (`elem.text`; `none` models Python `None`). -/
def Element.text : Element → Option String
  | .mk _ _ tx _ _ => tx

/-- Tail of an element (`elem.tail`). -/
def Element.tail : Element → Option String
  | .mk _ _ _ tl _ => tl

/-- Children of an element. -/
def Element.children : Element → List Element
  | .mk _ _ _ _ cs => cs

/-- Python `elem.set(key, value)`: set or replace one attribute. -/
def Element.setAttr : Element → String → String → Element
  | .mk t a tx tl cs, k, v => .mk t (dictSet a k v) tx tl cs

/-- Python `elem.get(key)`: look an attribute up. -/
def Element.getAttr (e : Element) (k : String) : Option String :=
  e.attrs.lookup k

/-- Python `parent.append(child)`. -/
def Element.appendChild : Element → Element → Element
  | .mk t a tx tl cs, c => .mk t a tx tl (cs ++ [c])

/-- Replace the text of an element (`elem.text = s`). -/
def Element.withText : Element → Option String → Element
  | .mk t a _ tl cs, tx => .mk t a tx tl cs

mutual

/-- All proper descendants of an element, in document order: what
`findall(".//xxx")` iterates over. -/
def Element.descendants : Element → List Element
  | .mk _ _ _ _ cs => descList cs

/-- Descendants helper: each element of the list followed by its own
descendants. -/
def descList : List Element → List Element
  | [] => []
  | c :: cs => c :: (Element.descendants c ++ descList cs)

end

/-- A fresh `ET.Element("Root")` as built in `XMLHandler.__init__`. -/
def freshRoot : Element := .mk "Root" [] none none []

/-- The fixed category set of the pipeline. -/
inductive Category : Type where
  | external
  | internal
  | client
deriving DecidableEq

/-- String name of a category, as used for the keys of `self.roots`. -/
def Category.name : Category → String
  | .external => "external"
  | .internal => "internal"
  | .client => "client"

/-- Membership test `category in self.roots`: `self.roots` is a dict whose
keys are always exactly the three category names. -/
def parseCategory (s : String) : Option Category :=
  if s == "external" then some .external
  else if s == "internal" then some .internal
  else if s == "client" then some .client
  else none

/-- The three in-memory document roots of `XMLHandler`. -/
structure Roots : Type where
  external : Element
  internal : Element
  client : Element

/-- Root of one category. -/
def Roots.get (r : Roots) : Category → Element
  | .external => r.external
  | .internal => r.internal
  | .client => r.client

/-- Replace the root of one category. -/
def Roots.set (r : Roots) : Category → Element → Roots
  | .external, e => { r with external := e }
  | .internal, e => { r with internal := e }
  | .client, e => { r with client := e }

/-- The roots as freshly constructed in `XMLHandler.__init__`. -/
def freshRoots : Roots := ⟨freshRoot, freshRoot, freshRoot⟩

/-- Whether an element is matched by `findall(".//entry[@filename]")` plus the
`entry.get('filename') == filename` check of `_entry_exists`: tag `entry`,
carrying a `filename` attribute equal to the given one. -/
def entryMatch (filename : String) (e : Element) : Bool :=
  e.tag == "entry" && e.getAttr "filename" == some filename

/-- Embedding of `XMLHandler._entry_exists`. -/
def entry_exists (root : Element) (filename : String) : Bool :=
  (root.descendants.filter (fun e => e.tag == "entry" &&
      (e.getAttr "filename").isSome)).any
    (fun e => e.getAttr "filename" == some filename)

/-- Number of entry descendants carrying the given filename attribute. -/
def entryCount (root : Element) (filename : String) : Nat :=
  (root.descendants.filter (entryMatch filename)).length

/-- The entry element built inside `XMLHandler.add_entry`: `filename`
attribute first, then the metadata pairs (values already stringified), then
the body text. -/
def newEntry (filename text : String) (metadata : List (String × String)) :
    Element :=
  let e0 : Element := .mk "entry" (dictSet [] "filename" filename) none none []
  let e1 := metadata.foldl (fun e p => e.setAttr p.1 p.2) e0
  e1.withText (some text)

/-- Result of a call to `XMLHandler.add_entry`: `err` holds the message of the
raised `ValueError` when the category is invalid (the raise happens before any
mutation, so `roots` is then the untouched input). -/
structure AddResult : Type where
  err : Option String
  roots : Roots

/-- Embedding of `XMLHandler.add_entry`. -/
def add_entry (roots : Roots) (category filename text : String)
    (metadata : List (String × String)) : AddResult :=
  match parseCategory category with
  | none => ⟨some ("Invalid category: " ++ category), roots⟩
  | some cat =>
    if entry_exists (roots.get cat) filename then ⟨none, roots⟩
    else
      ⟨none, roots.set cat ((roots.get cat).appendChild
        (newEntry filename text metadata))⟩

/-! File-system model and `FileTracker` (src/file_tracker.py). -/

/-- Timestamps: `os.path.getmtime` values, modelled as rationals. -/
abbrev Timestamp := Rat

/-- Read-only view of the source file system during a run. -/
structure FS : Type where
  fileExists : String → Bool
  mtime : String → Timestamp

/-- State of a `FileTracker`: the in-memory mapping and the persisted copy in
the tracker file (rewritten in full by `_save_tracker`). -/
structure TrackerState : Type where
  tracked_files : List (String × Timestamp)
  savedFile : List (String × Timestamp)

/-- Content of the persisted tracker file as seen by `_load_tracker`: absent,
or present with the outcome of `json.load` (the json parser is an external
collaborator, modelled by its result). -/
abbrev TrackerFileContent := Option (Except String (List (String × Timestamp)))

/-- Embedding of `FileTracker._load_tracker` (and hence of the constructor):
an absent file yields the empty mapping; a present file returns whatever
`json.load` produces, and a `json.load` exception propagates uncaught. -/
def load_tracker : TrackerFileContent →
    Except String (List (String × Timestamp))
  | none => .ok []
  | some (.ok data) => .ok data
  | some (.error e) => .error e

/-- Embedding of `FileTracker.needs_update`. -/
def needs_update (fs : FS) (tracked_files : List (String × Timestamp))
    (file_path : String) : Bool :=
  if !fs.fileExists file_path then
    false
  else
    let current_mtime := fs.mtime file_path
    let last_processed := (tracked_files.lookup file_path).getD 0
    current_mtime > last_processed

/-- Embedding of `FileTracker.update_file_timestamp`: record the current
mtime and persist the whole mapping immediately. -/
def update_file_timestamp (fs : FS) (st : TrackerState) (file_path : String) :
    TrackerState :=
  let m := dictSet st.tracked_files file_path (fs.mtime file_path)
  ⟨m, m⟩

/-! Path helpers (`os.path`, POSIX flavour). -/

/-- Index of the last occurrence of a character, `-1` when absent
(Python `str.rfind`). -/
def rfindAux : List Char → Char → Nat → Int → Int
  | [], _, _, acc => acc
  | x :: xs, c, i, acc =>
      rfindAux xs c (i + 1) (if x == c then Int.ofNat i else acc)

/-- Python `p.rfind(c)` over a character list. -/
def rfind (p : List Char) (c : Char) : Int := rfindAux p c 0 (-1)

/-- Embedding of `os.path.splitext` (POSIX `genericpath._splitext` with
separator `/` and extension separator `.`): split at the last dot after the
last slash, unless every character between them is itself a dot (so that
dotfiles such as `.bashrc` have no extension). -/
def splitext (p : String) : String × String :=
  let cs := p.toList
  let sepIndex := rfind cs '/'
  let dotIndex := rfind cs '.'
  if sepIndex < dotIndex then
    let between := (cs.drop (sepIndex + 1).toNat).take
      (dotIndex - sepIndex - 1).toNat
    if between.any (fun c => c != '.') then
      (String.mk (cs.take dotIndex.toNat), String.mk (cs.drop dotIndex.toNat))
    else (p, "")
  else (p, "")

/-- Embedding of `os.path.basename` (POSIX): everything after the last `/`. -/
def basename (p : String) : String :=
  let cs := p.toList
  String.mk (cs.drop (rfind cs '/' + 1).toNat)

/-! Text extraction (src/document_processor.py).  PyPDF2 and python-docx are
external collaborators, passed in as oracles describing their outcome on each
path. -/

/-- Outcome of `PdfReader` on a file: failure to open or parse, or the list of
pages, each page's `extract_text()` either failing or producing a string
(Python `None` is identified with the empty string: both are falsy). -/
abbrev PdfOracle := String → Except Unit (List (Except Unit String))

/-- Outcome of `docx.Document` on a file: failure, or the list of paragraph
texts. -/
abbrev DocxOracle := String → Except Unit (List String)

/-- Embedding of `DocumentProcessor._extract_from_pdf`: a reader failure
yields `""`; pages whose extraction fails are skipped, falsy page texts are
dropped, the rest are joined with newlines. -/
def extract_from_pdf (pdf : PdfOracle) (file_path : String) : String :=
  match pdf file_path with
  | .error _ => ""
  | .ok pages =>
    let text := pages.filterMap (fun pg =>
      match pg with
      | .error _ => none
      | .ok t => if t == "" then none else some t)
    if text.isEmpty then "" else String.intercalate "\n" text

/-- Embedding of `DocumentProcessor._extract_from_docx`: a reader failure
yields `""`; paragraphs whose text strips to empty are dropped, the rest are
joined with newlines. -/
def extract_from_docx (docx : DocxOracle) (file_path : String) : String :=
  match docx file_path with
  | .error _ => ""
  | .ok paras =>
    String.intercalate "\n" (paras.filter (fun p => !(pyStrip p == "")))

/-- Extensions supported by `DocumentProcessor`. -/
def supported_extensions : List String := [".pdf", ".docx"]

/-- Embedding of `DocumentProcessor.extract_text`: raises `ValueError` on an
unsupported extension, otherwise dispatches on the extension and never
raises (both extractors swallow their own failures and return `""`). -/
def extract_text (pdf : PdfOracle) (docx : DocxOracle) (file_path : String) :
    Except String String :=
  let extension := pyLower (splitext file_path).2
  if !supported_extensions.contains extension then
    .error ("Unsupported file type: " ++ extension)
  else if extension == ".pdf" then
    .ok (extract_from_pdf pdf file_path)
  else
    .ok (extract_from_docx docx file_path)

/-! Orchestration (src/main.py). -/

/-- The configuration fields that `_process_file` and `_determine_category`
read (from config.yaml). -/
structure PipeConfig : Type where
  document_extensions : List String
  ignore_extensions : List String
  folders_external : String
  folders_internal : String
  folders_client : String

/-- Whether `needle` occurs as a contiguous substring at the head of `hay`. -/
def leadsWith : List Char → List Char → Bool
  | [], _ => true
  | _ :: _, [] => false
  | a :: as, b :: bs => a == b && leadsWith as bs

/-- Whether `needle` occurs as a contiguous substring anywhere in `hay`
(Python `needle in hay` on strings; the empty needle always occurs). -/
def occursIn (needle : List Char) (hay : List Char) : Bool :=
  leadsWith needle hay ||
    match hay with
    | [] => false
    | _ :: t => occursIn needle t

/-- Python string containment `needle in hay`. -/
def strOccursIn (needle hay : String) : Bool :=
  occursIn needle.toList hay.toList

/-- Embedding of `DocumentProcessingPipeline._determine_category`: normalise
separators and case, then test the three configured folder names for
substring containment in the fixed order external, internal, client. -/
def determine_category (cfg : PipeConfig) (subdir : String) :
    Option Category :=
  let s := pyLower (pyNormSep subdir)
  if strOccursIn (pyLower cfg.folders_external) s then some .external
  else if strOccursIn (pyLower cfg.folders_internal) s then some .internal
  else if strOccursIn (pyLower cfg.folders_client) s then some .client
  else none

/-- Per-file outcome reported by `_process_file`. -/
inductive Outcome : Type where
  | processed
  | skipped
  | error
deriving DecidableEq

/-- Mutable state touched by `_process_file`: the tracker and the XML roots. -/
structure PipeState : Type where
  tracker : TrackerState
  roots : Roots

/-- Embedding of `DocumentProcessingPipeline._process_file`.  `now` stands for
`str(datetime.now())`.  A `ValueError` escaping `extract_text` or `add_entry`
is caught by the surrounding `except` and turned into outcome `error` with no
state change (the raise precedes every mutation). -/
def process_file (cfg : PipeConfig) (fs : FS) (pdf : PdfOracle)
    (docx : DocxOracle) (now : String) (st : PipeState)
    (file_path subdir : String) : Outcome × PipeState :=
  let extension := pyLower (splitext file_path).2
  if cfg.ignore_extensions.contains extension then (.skipped, st)
  else if !cfg.document_extensions.contains extension then (.skipped, st)
  else if !needs_update fs st.tracker.tracked_files file_path then
    (.skipped, st)
  else
    match determine_category cfg subdir with
    | none => (.skipped, st)
    | some category =>
      match extract_text pdf docx file_path with
      | .error _ => (.error, st)
      | .ok text =>
        if pyStrip text == "" then (.error, st)
        else
          let res := add_entry st.roots category.name (basename file_path)
            text [("processed_date", now)]
          match res.err with
          | some _ => (.error, st)
          | none =>
            (.processed,
              ⟨update_file_timestamp fs st.tracker file_path, res.roots⟩)

/-! Saving and loading the aggregate documents (src/xml_handler.py).
Serialisation and parsing are performed by the standard `xml.etree` library
(an external collaborator); the output directory is modelled as storing, per
path, the element tree that was written (or a parse failure marker for a
pre-existing unparseable file). -/

/-- Python truthiness test `not elem.text or not elem.text.strip()` used by
`_indent`. -/
def pyFalsyText : Option String → Bool
  | none => true
  | some s => pyStrip s == ""

mutual

/-- Embedding of `XMLHandler._indent`: nodes with children get their text (if
falsy) and tail (if falsy) replaced by indentation whitespace and their
children indented one level deeper; childless nodes at positive depth get
only a falsy tail replaced. -/
def indentElem (level : Nat) : Element → Element
  | .mk tag attrs text tail cs =>
    let i := "\n" ++ String.join (List.replicate level "  ")
    if cs.length ≠ 0 then
      let text1 := if pyFalsyText text then some (i ++ "  ") else text
      let tail1 := if pyFalsyText tail then some i else tail
      let cs1 := indentList (level + 1) cs
      let tail2 := if pyFalsyText tail1 then some i else tail1
      .mk tag attrs text1 tail2 cs1
    else
      let tail1 := if level ≠ 0 && pyFalsyText tail then some i else tail
      .mk tag attrs text tail1 cs

/-- Indent every element of a list (the `for subelem in elem` loop of
`_indent`). -/
def indentList (level : Nat) : List Element → List Element
  | [] => []
  | c :: cs => indentElem level c :: indentList level cs

end

/-- The three configured output file names (config `xml` section). -/
structure XmlConfig : Type where
  external_file : String
  internal_file : String
  client_file : String

/-- Output file name configured for a category. -/
def XmlConfig.fileFor : XmlConfig → Category → String
  | c, .external => c.external_file
  | c, .internal => c.internal_file
  | c, .client => c.client_file

/-- Content of the output directory: per path, either nothing, or a stored
document (`.ok` with the written element tree, `.error` standing for a
present file on which `ET.parse` fails). -/
abbrev OutDir := String → Option (Except Unit Element)

/-- Store a document tree at a path, overwriting any prior file. -/
def writeFile (dir : OutDir) (path : String) (e : Element) : OutDir :=
  fun p => if p == path then some (.ok e) else dir p

/-- Embedding of `XMLHandler.save_all`: for each category in dict order
(external, internal, client), `_save_xml` indents the in-memory root in place
and writes it out.  The returned roots are the indented in-memory trees. -/
def save_all (cfg : XmlConfig) (r : Roots) (dir : OutDir) : Roots × OutDir :=
  let re := indentElem 0 r.external
  let d1 := writeFile dir cfg.external_file re
  let ri := indentElem 0 r.internal
  let d2 := writeFile d1 cfg.internal_file ri
  let rc := indentElem 0 r.client
  let d3 := writeFile d2 cfg.client_file rc
  (⟨re, ri, rc⟩, d3)

/-- Load one category's document in `_load_existing_files`: a missing file
keeps the fresh root, a parse failure logs a warning and keeps the fresh
root, a parsed file becomes the root. -/
def loadRoot (dir : OutDir) (path : String) : Element :=
  match dir path with
  | some (.ok e) => e
  | some (.error _) => freshRoot
  | none => freshRoot

/-- Embedding of the `XMLHandler` constructor followed by
`_load_existing_files`. -/
def initializeRoots (cfg : XmlConfig) (dir : OutDir) : Roots :=
  ⟨loadRoot dir cfg.external_file, loadRoot dir cfg.internal_file,
    loadRoot dir cfg.client_file⟩

/-- Observable data of the entries of a document: for each descendant tagged
`entry`, in document order, its attribute list and its body text. -/
def entryData (root : Element) :
    List (List (String × String) × Option String) :=
  (root.descendants.filter (fun e => e.tag == "entry")).map
    (fun e => (e.attrs, e.text))

/-- One `add_entry` call as issued by the orchestrator during a run: the
category always comes from `_determine_category`, hence is one of the fixed
three. -/
structure AddCall : Type where
  category : Category
  filename : String
  text : String
  metadata : List (String × String)

/-- Apply one `add_entry` call to the roots. -/
def applyAdd (r : Roots) (c : AddCall) : Roots :=
  (add_entry r c.category.name c.filename c.text c.metadata).roots

/-- Apply a run's sequence of `add_entry` calls in order. -/
def runAdds (r : Roots) (calls : List AddCall) : Roots :=
  calls.foldl applyAdd r

/-! Helper lemmas. -/

@[simp]
theorem tag_mk (t : String) (a : List (String × String)) (tx tl : Option String)
    (cs : List Element) : (Element.mk t a tx tl cs).tag = t := rfl

@[simp]
theorem attrs_mk (t : String) (a : List (String × String))
    (tx tl : Option String) (cs : List Element) :
    (Element.mk t a tx tl cs).attrs = a := rfl

@[simp]
theorem text_mk (t : String) (a : List (String × String))
    (tx tl : Option String) (cs : List Element) :
    (Element.mk t a tx tl cs).text = tx := rfl

@[simp]
theorem tail_mk (t : String) (a : List (String × String))
    (tx tl : Option String) (cs : List Element) :
    (Element.mk t a tx tl cs).tail = tl := rfl

@[simp]
theorem children_mk (t : String) (a : List (String × String))
    (tx tl : Option String) (cs : List Element) :
    (Element.mk t a tx tl cs).children = cs := rfl

theorem descendants_eq (e : Element) : e.descendants = descList e.children := by
  cases e
  rfl

theorem descList_append (xs ys : List Element) :
    descList (xs ++ ys) = descList xs ++ descList ys := by
  induction xs with
  | nil => simp [descList]
  | cons c cs ih => simp [descList, ih]

theorem descList_of_childless (l : List Element)
    (h : ∀ c ∈ l, c.children = []) : descList l = l := by
  induction l with
  | nil => rfl
  | cons c cs ih =>
    have hc : c.descendants = [] := by
      rw [descendants_eq, h c (by simp)]
      rfl
    simp [descList, hc, ih (fun x hx => h x (by simp [hx]))]

theorem appendChild_children (e c : Element) :
    (e.appendChild c).children = e.children ++ [c] := by
  cases e
  rfl

theorem appendChild_descendants (e c : Element) (hc : c.children = []) :
    (e.appendChild c).descendants = e.descendants ++ [c] := by
  cases e with
  | mk t a tx tl cs =>
    have : descList [c] = [c] := descList_of_childless [c] (by simpa using hc)
    simp [Element.appendChild, descendants_eq, Element.children, descList_append,
      this]

theorem setAttr_tag (e : Element) (k v : String) : (e.setAttr k v).tag = e.tag := by
  cases e
  rfl

theorem setAttr_children (e : Element) (k v : String) :
    (e.setAttr k v).children = e.children := by
  cases e
  rfl

theorem withText_tag (e : Element) (tx : Option String) :
    (e.withText tx).tag = e.tag := by
  cases e
  rfl

theorem withText_children (e : Element) (tx : Option String) :
    (e.withText tx).children = e.children := by
  cases e
  rfl

theorem withText_attrs (e : Element) (tx : Option String) :
    (e.withText tx).attrs = e.attrs := by
  cases e
  rfl

theorem lookup_cons_self {α : Type} (k : String) (v : α)
    (l : List (String × α)) : List.lookup k ((k, v) :: l) = some v := by
  simp [List.lookup]

theorem lookup_cons_ne {α : Type} (k k' : String) (v : α)
    (l : List (String × α)) (h : k' ≠ k) :
    List.lookup k' ((k, v) :: l) = List.lookup k' l := by
  have hb : (k' == k) = false := beq_eq_false_iff_ne.mpr h
  simp [List.lookup, hb]

theorem lookup_map_replace {α : Type} (m : List (String × α)) (k k' : String)
    (v : α) (h : k' ≠ k) :
    (m.map (fun p => if p.1 == k then (k, v) else p)).lookup k' =
      m.lookup k' := by
  induction m with
  | nil => rfl
  | cons p ps ih =>
    cases p with
    | mk pk pv =>
      simp only [List.map_cons]
      by_cases hp : pk = k
      · rw [if_pos (by simpa using hp)]
        rw [lookup_cons_ne k k' v _ h,
          lookup_cons_ne pk k' pv ps (by simpa [hp] using h), ih]
      · rw [if_neg (by simpa using hp)]
        by_cases hp' : k' = pk
        · subst hp'
          rw [lookup_cons_self, lookup_cons_self]
        · rw [lookup_cons_ne pk k' pv _ hp', lookup_cons_ne pk k' pv ps hp',
            ih]

theorem lookup_append_single {α : Type} (m : List (String × α))
    (k k' : String) (v : α) (h : k' ≠ k) :
    (m ++ [(k, v)]).lookup k' = m.lookup k' := by
  induction m with
  | nil => simpa [List.lookup] using lookup_cons_ne k k' v [] h
  | cons p ps ih =>
    cases p with
    | mk pk pv =>
      by_cases hp' : k' = pk
      · subst hp'
        simp only [List.cons_append]
        rw [lookup_cons_self, lookup_cons_self]
      · simp only [List.cons_append]
        rw [lookup_cons_ne pk k' pv _ hp', lookup_cons_ne pk k' pv ps hp', ih]

theorem dictSet_lookup_ne {α : Type} (m : List (String × α)) (k k' : String)
    (v : α) (h : k' ≠ k) : (dictSet m k v).lookup k' = m.lookup k' := by
  unfold dictSet
  split
  · exact lookup_map_replace m k k' v h
  · exact lookup_append_single m k k' v h

theorem setAttr_getAttr_ne (e : Element) (k k' v : String) (h : k' ≠ k) :
    (e.setAttr k v).getAttr k' = e.getAttr k' := by
  cases e with
  | mk t a tx tl cs =>
    simpa [Element.setAttr, Element.getAttr, Element.attrs] using
      dictSet_lookup_ne a k k' v h

theorem foldlSetAttr_tag (m : List (String × String)) (e : Element) :
    (m.foldl (fun e p => e.setAttr p.1 p.2) e).tag = e.tag := by
  induction m generalizing e with
  | nil => rfl
  | cons p ps ih => simp [List.foldl, ih, setAttr_tag]

theorem foldlSetAttr_children (m : List (String × String)) (e : Element) :
    (m.foldl (fun e p => e.setAttr p.1 p.2) e).children = e.children := by
  induction m generalizing e with
  | nil => rfl
  | cons p ps ih => simp [List.foldl, ih, setAttr_children]

theorem foldlSetAttr_getAttr (m : List (String × String)) (e : Element)
    (k : String) (hm : ∀ p ∈ m, p.1 ≠ k) :
    (m.foldl (fun e p => e.setAttr p.1 p.2) e).getAttr k = e.getAttr k := by
  induction m generalizing e with
  | nil => rfl
  | cons p ps ih =>
    simp only [List.foldl]
    rw [ih _ (fun q hq => hm q (by simp [hq])),
      setAttr_getAttr_ne _ _ _ _ (fun he => hm p (by simp) (he.symm))]

theorem newEntry_tag (f t : String) (m : List (String × String)) :
    (newEntry f t m).tag = "entry" := by
  simp only [newEntry]
  rw [withText_tag, foldlSetAttr_tag]
  rfl

theorem newEntry_children (f t : String) (m : List (String × String)) :
    (newEntry f t m).children = [] := by
  simp only [newEntry]
  rw [withText_children, foldlSetAttr_children]
  rfl

theorem getAttr_eq_lookup (e : Element) (k : String) :
    e.getAttr k = e.attrs.lookup k := rfl

theorem newEntry_getAttr (f t : String) (m : List (String × String))
    (hm : ∀ p ∈ m, p.1 ≠ "filename") :
    (newEntry f t m).getAttr "filename" = some f := by
  simp only [newEntry]
  rw [getAttr_eq_lookup, withText_attrs, ← getAttr_eq_lookup,
    foldlSetAttr_getAttr _ _ _ hm]
  simp [Element.getAttr, Element.attrs, dictSet, lookup_cons_self]

theorem any_filter {α : Type} (l : List α) (p q : α → Bool) :
    (l.filter p).any q = l.any (fun a => p a && q a) := by
  induction l with
  | nil => rfl
  | cons a t ih =>
    by_cases h : p a = true
    · simp [List.filter, List.any, h, ih]
    · simp only [List.filter, List.any]
      rw [Bool.not_eq_true] at h
      simp [h, ih]

theorem entry_exists_eq_any (root : Element) (f : String) :
    entry_exists root f = root.descendants.any (entryMatch f) := by
  unfold entry_exists
  rw [any_filter]
  have hfun : (fun e : Element =>
      (e.tag == "entry" && (e.getAttr "filename").isSome) &&
        (e.getAttr "filename" == some f)) = entryMatch f := by
    funext e
    unfold entryMatch
    cases h : e.getAttr "filename" with
    | none => simp [h]
    | some v => simp [h, Bool.and_assoc]
  rw [hfun]

theorem entry_exists_iff (root : Element) (f : String) :
    entry_exists root f = true ↔ 0 < entryCount root f := by
  rw [entry_exists_eq_any]
  unfold entryCount
  rw [List.any_eq_true, List.length_pos_iff_ne_nil]
  constructor
  · rintro ⟨e, he, hm⟩ hnil
    have : e ∈ root.descendants.filter (entryMatch f) :=
      List.mem_filter.mpr ⟨he, hm⟩
    rw [hnil] at this
    exact absurd this (List.not_mem_nil e)
  · intro hne
    rcases List.exists_mem_of_ne_nil _ hne with ⟨e, he⟩
    rcases List.mem_filter.mp he with ⟨h1, h2⟩
    exact ⟨e, h1, h2⟩

theorem entry_exists_false_count (root : Element) (f : String)
    (h : entry_exists root f = false) : entryCount root f = 0 := by
  by_contra hc
  have := (entry_exists_iff root f).mpr (Nat.pos_of_ne_zero hc)
  rw [h] at this
  exact Bool.false_ne_true this

theorem entryCount_appendChild (e c : Element) (f : String)
    (hc : c.children = []) :
    entryCount (e.appendChild c) f =
      entryCount e f + (if entryMatch f c then 1 else 0) := by
  unfold entryCount
  rw [appendChild_descendants e c hc, List.filter_append]
  by_cases h : entryMatch f c = true
  · simp [List.filter, h]
  · rw [Bool.not_eq_true] at h
    simp [List.filter, h]

theorem Roots.get_set_same (r : Roots) (cat : Category) (e : Element) :
    (r.set cat e).get cat = e := by
  cases cat <;> rfl

theorem Roots.get_set_ne (r : Roots) (c c' : Category) (e : Element)
    (h : c' ≠ c) : (r.set c' e).get c = r.get c := by
  cases c <;> cases c' <;> first | rfl | exact absurd rfl h

theorem parseCategory_name (cat : Category) :
    parseCategory cat.name = some cat := by
  cases cat <;> rfl

theorem parseCategory_eq_none_iff (s : String) :
    parseCategory s = none ↔
      s ∉ (["external", "internal", "client"] : List String) := by
  unfold parseCategory
  by_cases h1 : s = "external"
  · simp [h1]
  · by_cases h2 : s = "internal"
    · simp [h2]
    · by_cases h3 : s = "client"
      · simp [h3]
      · rw [if_neg (by simpa using h1), if_neg (by simpa using h2),
          if_neg (by simpa using h3)]
        simp [h1, h2, h3]

/-! Claim theorems. -/

/-- C3: `needs_update` returns false when the path does not exist on disk;
otherwise it returns true if and only if the file's current modification time
is strictly greater than the recorded last-processed value, taking 0 as the
recorded value when the path is absent from the tracked mapping, so a file
whose mtime exactly equals the recorded value is not due. -/
theorem C3_needs_update (fs : FS) (tracked : List (String × Timestamp))
    (p : String) :
    (fs.fileExists p = false → needs_update fs tracked p = false) ∧
    (fs.fileExists p = true →
      (needs_update fs tracked p = true ↔
        (match tracked.lookup p with
         | some v => v
         | none => 0) < fs.mtime p)) := by
  constructor
  · intro h
    simp [needs_update, h]
  · intro h
    unfold needs_update
    rw [h]
    cases hl : tracked.lookup p <;> simp [hl]

/-- Witness for C3 at a tracked file with recorded time 1 and current mtime 2:
the file is due. -/
theorem C3_needs_update_witness :
    needs_update ⟨fun _ => true, fun _ => 2⟩ [("a", 1)] "a" = true ↔
      (match List.lookup "a" [("a", (1 : Timestamp))] with
       | some v => v
       | none => 0) < (2 : Timestamp) :=
  (C3_needs_update ⟨fun _ => true, fun _ => 2⟩ [("a", 1)] "a").2 rfl

/-- C9: when the persisted tracker file exists but `json.load` fails, the
`FileTracker` constructor propagates the parse error (it does not fall back
to an empty mapping); only an absent tracker file yields the empty initial
mapping, and a parseable file yields its own mapping. -/
theorem C9_load_tracker (f : TrackerFileContent) :
    (∀ e, f = some (.error e) → load_tracker f = .error e) ∧
    (f = none → load_tracker f = .ok []) ∧
    (∀ d, f = some (.ok d) → load_tracker f = .ok d) := by
  refine ⟨fun e h => ?_, fun h => ?_, fun d h => ?_⟩ <;> rw [h] <;> rfl

/-- Witness for C9: a present tracker file with invalid JSON makes
construction fail with that parse error. -/
theorem C9_load_tracker_witness :
    load_tracker (some (.error "Expecting value")) = .error "Expecting value" :=
  (C9_load_tracker (some (.error "Expecting value"))).1 "Expecting value" rfl

/-- C10: `extract_text` succeeds (never raises) exactly when the lowercased
extension is in the supported set, raising `ValueError` otherwise; and an
internal reader failure on a supported file yields the empty string rather
than an exception. -/
theorem C10_extract_text (pdf : PdfOracle) (docx : DocxOracle) (p : String) :
    (supported_extensions.contains (pyLower (splitext p).2) = true →
      ∃ s, extract_text pdf docx p = .ok s) ∧
    (supported_extensions.contains (pyLower (splitext p).2) = false →
      extract_text pdf docx p =
        .error ("Unsupported file type: " ++ pyLower (splitext p).2)) ∧
    (pyLower (splitext p).2 = ".pdf" → pdf p = .error () →
      extract_text pdf docx p = .ok "") ∧
    (pyLower (splitext p).2 = ".docx" → docx p = .error () →
      extract_text pdf docx p = .ok "") := by
  refine ⟨fun h => ?_, fun h => ?_, fun h hr => ?_, fun h hr => ?_⟩
  · by_cases hp : (pyLower (splitext p).2 == ".pdf") = true
    · exact ⟨extract_from_pdf pdf p, by simp only [extract_text, h, hp]; simp⟩
    · rw [Bool.not_eq_true] at hp
      exact ⟨extract_from_docx docx p, by simp only [extract_text, h, hp]; simp⟩
  · simp only [extract_text, h]
    simp
  · have hc : supported_extensions.contains (pyLower (splitext p).2) = true := by
      rw [h]
      decide
    simp only [extract_text, h, hc]
    simp [extract_from_pdf, hr, supported_extensions]
  · have hc : supported_extensions.contains (pyLower (splitext p).2) = true := by
      rw [h]
      decide
    have hp : (pyLower (splitext p).2 == ".pdf") = false := by
      rw [h]
      decide
    simp only [extract_text, h, hc, hp]
    simp [extract_from_docx, hr, supported_extensions]

/-- Witness for C10: a PDF whose reader fails to open yields the empty
string, not an exception. -/
theorem C10_extract_text_witness :
    extract_text (fun _ => .error ()) (fun _ => .ok []) "client/scan.pdf" =
      .ok "" :=
  (C10_extract_text (fun _ => .error ()) (fun _ => .ok [])
    "client/scan.pdf").2.2.1 (by decide) rfl

/-- C7: `add_entry` raises `ValueError` (invalid category) exactly when the
category is not one of the fixed three, and when it raises, no category
document is modified. -/
theorem C7_add_entry_invalid (r : Roots) (category filename text : String)
    (m : List (String × String)) :
    ((add_entry r category filename text m).err ≠ none ↔
      category ∉ (["external", "internal", "client"] : List String)) ∧
    ((add_entry r category filename text m).err ≠ none →
      (add_entry r category filename text m).roots = r) := by
  unfold add_entry
  cases hp : parseCategory category with
  | none =>
    refine ⟨?_, fun _ => rfl⟩
    simp only [ne_eq, Option.some_ne_none, not_false_iff, true_iff]
    exact (parseCategory_eq_none_iff category).mp hp
  | some cat =>
    have hmem : category ∈ (["external", "internal", "client"] : List String) := by
      by_contra hc
      rw [← parseCategory_eq_none_iff category] at hc
      rw [hp] at hc
      exact Option.some_ne_none cat hc
    by_cases he : entry_exists (r.get cat) filename = true
    · simp [he, hmem]
    · rw [Bool.not_eq_true] at he
      simp [he, hmem]

/-- Witness for C7: category `"bogus"` makes `add_entry` raise and leaves the
fresh roots untouched. -/
theorem C7_add_entry_invalid_witness :
    ((add_entry freshRoots "bogus" "f.pdf" "text" []).err ≠ none ↔
      "bogus" ∉ (["external", "internal", "client"] : List String)) ∧
    ((add_entry freshRoots "bogus" "f.pdf" "text" []).err ≠ none →
      (add_entry freshRoots "bogus" "f.pdf" "text" []).roots = freshRoots) :=
  C7_add_entry_invalid freshRoots "bogus" "f.pdf" "text" []

/-- C8: a file whose lowercased extension is in the ignore set or outside the
document set has outcome skipped, and the whole pipeline state — the tracked
mapping in memory, its persisted copy, and every category document — is left
unchanged. -/
theorem C8_skip_untouched (cfg : PipeConfig) (fs : FS) (pdf : PdfOracle)
    (docx : DocxOracle) (now : String) (st : PipeState)
    (file_path subdir : String)
    (h : cfg.ignore_extensions.contains (pyLower (splitext file_path).2) =
        true ∨
      cfg.document_extensions.contains (pyLower (splitext file_path).2) =
        false) :
    process_file cfg fs pdf docx now st file_path subdir = (.skipped, st) := by
  rcases h with h | h
  · simp only [process_file, h]
    simp
  · by_cases hi : cfg.ignore_extensions.contains
        (pyLower (splitext file_path).2) = true
    · simp only [process_file, hi]
      simp
    · rw [Bool.not_eq_true] at hi
      simp only [process_file, hi, h]
      simp

/-- Witness for C8: a `.tmp` file (ignored extension) is skipped with the
state untouched. -/
theorem C8_skip_untouched_witness :
    process_file ⟨[".pdf", ".docx"], [".tmp"], "external", "internal",
        "client"⟩ ⟨fun _ => true, fun _ => 1⟩ (fun _ => .ok [])
      (fun _ => .ok []) "now" ⟨⟨[], []⟩, freshRoots⟩ "external/junk.tmp"
      "external" = (.skipped, ⟨⟨[], []⟩, freshRoots⟩) :=
  C8_skip_untouched _ _ _ _ _ _ _ _ (Or.inl (by decide))

/-- C4: a file that reaches extraction and yields empty or whitespace-only
text has outcome error, with no entry added to any category document and the
tracker timestamp untouched (the whole state is unchanged, so the file stays
due). -/
theorem C4_empty_extraction_error (cfg : PipeConfig) (fs : FS)
    (pdf : PdfOracle) (docx : DocxOracle) (now : String) (st : PipeState)
    (file_path subdir : String) (cat : Category) (t : String)
    (h1 : cfg.ignore_extensions.contains (pyLower (splitext file_path).2) =
      false)
    (h2 : cfg.document_extensions.contains (pyLower (splitext file_path).2) =
      true)
    (h3 : needs_update fs st.tracker.tracked_files file_path = true)
    (h4 : determine_category cfg subdir = some cat)
    (h5 : extract_text pdf docx file_path = .ok t)
    (h6 : pyStrip t = "") :
    process_file cfg fs pdf docx now st file_path subdir = (.error, st) := by
  simp only [process_file, h1, h2, h3, h4, h5, h6]
  simp

/-- Witness for C4: `client/scan.pdf` whose PDF reader yields no pages
extracts to the empty string; the outcome is error and the state is the
untouched input state. -/
theorem C4_empty_extraction_error_witness :
    process_file ⟨[".pdf", ".docx"], [".tmp"], "external", "internal",
        "client"⟩ ⟨fun _ => true, fun _ => 1⟩ (fun _ => .ok [])
      (fun _ => .ok []) "now" ⟨⟨[], []⟩, freshRoots⟩ "client/scan.pdf"
      "client" = (.error, ⟨⟨[], []⟩, freshRoots⟩) :=
  C4_empty_extraction_error _ _ _ _ _ _ _ _ .client "" (by decide) (by decide)
    (by decide) (by decide) rfl (by decide)

/-- C5: the category of a containing directory is determined by
case-insensitive substring match of the configured folder names against the
separator-normalised lowercased path, tested in the fixed order external,
internal, client with the first match winning; and when none match the
file's outcome is skipped (not an error), with the state untouched. -/
theorem C5_category_precedence (cfg : PipeConfig) (subdir : String) :
    (determine_category cfg subdir = some .external ↔
      strOccursIn (pyLower cfg.folders_external)
        (pyLower (pyNormSep subdir)) = true) ∧
    (determine_category cfg subdir = some .internal ↔
      (strOccursIn (pyLower cfg.folders_external)
        (pyLower (pyNormSep subdir)) = false ∧
       strOccursIn (pyLower cfg.folders_internal)
        (pyLower (pyNormSep subdir)) = true)) ∧
    (determine_category cfg subdir = some .client ↔
      (strOccursIn (pyLower cfg.folders_external)
        (pyLower (pyNormSep subdir)) = false ∧
       strOccursIn (pyLower cfg.folders_internal)
        (pyLower (pyNormSep subdir)) = false ∧
       strOccursIn (pyLower cfg.folders_client)
        (pyLower (pyNormSep subdir)) = true)) ∧
    (determine_category cfg subdir = none ↔
      (strOccursIn (pyLower cfg.folders_external)
        (pyLower (pyNormSep subdir)) = false ∧
       strOccursIn (pyLower cfg.folders_internal)
        (pyLower (pyNormSep subdir)) = false ∧
       strOccursIn (pyLower cfg.folders_client)
        (pyLower (pyNormSep subdir)) = false)) ∧
    (∀ (fs : FS) (pdf : PdfOracle) (docx : DocxOracle) (now : String)
        (st : PipeState) (file_path : String),
      determine_category cfg subdir = none →
      process_file cfg fs pdf docx now st file_path subdir =
        (.skipped, st)) := by
  have hskip : ∀ (fs : FS) (pdf : PdfOracle) (docx : DocxOracle)
      (now : String) (st : PipeState) (file_path : String),
      determine_category cfg subdir = none →
      process_file cfg fs pdf docx now st file_path subdir =
        (.skipped, st) := by
    intro fs pdf docx now st fp hd
    by_cases h1 : cfg.ignore_extensions.contains (pyLower (splitext fp).2) =
      true
    · simp only [process_file, h1]
      simp
    · rw [Bool.not_eq_true] at h1
      by_cases h2 : cfg.document_extensions.contains
          (pyLower (splitext fp).2) = true
      · by_cases h3 : needs_update fs st.tracker.tracked_files fp = true
        · simp only [process_file, h1, h2, h3, hd]
          simp
        · rw [Bool.not_eq_true] at h3
          simp only [process_file, h1, h2, h3]
          simp
      · rw [Bool.not_eq_true] at h2
        simp only [process_file, h1, h2]
        simp
  refine ⟨?_, ?_, ?_, ?_, hskip⟩ <;>
    by_cases he : strOccursIn (pyLower cfg.folders_external)
      (pyLower (pyNormSep subdir)) = true <;>
    by_cases hi : strOccursIn (pyLower cfg.folders_internal)
      (pyLower (pyNormSep subdir)) = true <;>
    by_cases hcl : strOccursIn (pyLower cfg.folders_client)
      (pyLower (pyNormSep subdir)) = true <;>
    simp [determine_category, he, hi, hcl]

/-- Witness for C5: a path under `unsorted` matches none of the configured
folders, so the file is skipped. -/
theorem C5_category_precedence_witness :
    process_file ⟨[".pdf", ".docx"], [".tmp"], "external", "internal",
        "client"⟩ ⟨fun _ => true, fun _ => 1⟩ (fun _ => .ok [])
      (fun _ => .ok []) "now" ⟨⟨[], []⟩, freshRoots⟩ "unsorted/memo.pdf"
      "unsorted" = (.skipped, ⟨⟨[], []⟩, freshRoots⟩) :=
  (C5_category_precedence ⟨[".pdf", ".docx"], [".tmp"], "external",
    "internal", "client"⟩ "unsorted").2.2.2.2 ⟨fun _ => true, fun _ => 1⟩
    (fun _ => .ok []) (fun _ => .ok []) "now" ⟨⟨[], []⟩, freshRoots⟩
    "unsorted/memo.pdf" (by decide)

/-- C1 counterexample: the claim quantifies over arbitrary metadata, but a
metadata pair with the reserved key `filename` overwrites the filename
attribute set by `add_entry`.  Calling twice with category `external`,
filename `F` and metadata mapping `filename` to `X` leaves zero entries whose
filename attribute is `F`, and the second call is not a no-op: the document
grows from one child to two. -/
theorem C1_counterexample :
    entryCount (((add_entry (add_entry freshRoots "external" "F" "t1"
        [("filename", "X")]).roots "external" "F" "t2"
        [("filename", "X")]).roots).get .external) "F" = 0 ∧
    (((add_entry (add_entry freshRoots "external" "F" "t1"
        [("filename", "X")]).roots "external" "F" "t2"
        [("filename", "X")]).roots).get .external).children.length = 2 ∧
    (((add_entry freshRoots "external" "F" "t1"
        [("filename", "X")]).roots).get .external).children.length = 1 := by
  decide

/-- C1 (amended): provided the first call's metadata does not itself use the
reserved attribute key `filename`, and the category's document satisfies the
documented invariant of at most one entry per filename, calling `add_entry`
twice with the same category and filename (whatever the texts and the second
call's metadata) leaves exactly one entry with that filename attribute, the
second call being a silent no-op that changes nothing. -/
theorem C1_add_entry_dedup (r : Roots) (cat : Category) (f t1 t2 : String)
    (m1 m2 : List (String × String))
    (hm1 : ∀ p ∈ m1, p.1 ≠ "filename")
    (hpre : entryCount (r.get cat) f ≤ 1) :
    entryCount (((add_entry ((add_entry r cat.name f t1 m1).roots) cat.name f
        t2 m2).roots).get cat) f = 1 ∧
    (add_entry ((add_entry r cat.name f t1 m1).roots) cat.name f t2 m2).roots
      = (add_entry r cat.name f t1 m1).roots := by
  have hparse := parseCategory_name cat
  by_cases he : entry_exists (r.get cat) f = true
  · have h1 : (add_entry r cat.name f t1 m1).roots = r := by
      unfold add_entry
      rw [hparse]
      simp [he]
    have h2 : (add_entry r cat.name f t2 m2).roots = r := by
      unfold add_entry
      rw [hparse]
      simp [he]
    rw [h1, h2]
    have hcount := (entry_exists_iff (r.get cat) f).mp he
    exact ⟨by omega, rfl⟩
  · rw [Bool.not_eq_true] at he
    have hzero : entryCount (r.get cat) f = 0 :=
      entry_exists_false_count _ _ he
    have h1 : (add_entry r cat.name f t1 m1).roots
        = r.set cat ((r.get cat).appendChild (newEntry f t1 m1)) := by
      unfold add_entry
      rw [hparse]
      simp [he]
    have hget : ((add_entry r cat.name f t1 m1).roots).get cat
        = (r.get cat).appendChild (newEntry f t1 m1) := by
      rw [h1, Roots.get_set_same]
    have hmatch : entryMatch f (newEntry f t1 m1) = true := by
      unfold entryMatch
      rw [newEntry_tag, newEntry_getAttr f t1 m1 hm1]
      simp
    have hcount1 : entryCount (((add_entry r cat.name f t1 m1).roots).get cat)
        f = 1 := by
      rw [hget, entryCount_appendChild _ _ _ (newEntry_children f t1 m1),
        hzero, hmatch]
      simp
    have hex1 : entry_exists (((add_entry r cat.name f t1 m1).roots).get cat)
        f = true := by
      rw [entry_exists_iff, hcount1]
      omega
    have h2 : ∀ r1 : Roots, entry_exists (r1.get cat) f = true →
        (add_entry r1 cat.name f t2 m2).roots = r1 := by
      intro r1 hx
      unfold add_entry
      rw [hparse]
      simp [hx]
    rw [h2 _ hex1]
    exact ⟨hcount1, rfl⟩

/-- Witness for C1 (amended): a first add with ordinary metadata and a
duplicate re-add with different text leave exactly one entry for the
filename, the second call changing nothing. -/
theorem C1_add_entry_dedup_witness :
    entryCount (((add_entry ((add_entry freshRoots "external" "a.pdf" "text"
        [("processed_date", "d")]).roots) "external" "a.pdf" "other"
        []).roots).get .external) "a.pdf" = 1 ∧
    (add_entry ((add_entry freshRoots "external" "a.pdf" "text"
        [("processed_date", "d")]).roots) "external" "a.pdf" "other" []).roots
      = (add_entry freshRoots "external" "a.pdf" "text"
        [("processed_date", "d")]).roots :=
  C1_add_entry_dedup freshRoots .external "a.pdf" "text" "other"
    [("processed_date", "d")] [] (by decide) (by decide)

theorem applyAdd_children_suffix (r : Roots) (c : AddCall) (cat : Category) :
    ∃ tl, ((applyAdd r c).get cat).children = (r.get cat).children ++ tl := by
  unfold applyAdd add_entry
  rw [parseCategory_name]
  by_cases he : entry_exists (r.get c.category) c.filename = true
  · exact ⟨[], by simp [he]⟩
  · rw [Bool.not_eq_true] at he
    by_cases hc : c.category = cat
    · subst hc
      refine ⟨[newEntry c.filename c.text c.metadata], ?_⟩
      simp [he, Roots.get_set_same, appendChild_children]
    · refine ⟨[], ?_⟩
      simp [he, Roots.get_set_ne _ _ _ _ hc]

theorem runAdds_children_suffix (calls : List AddCall) (r : Roots)
    (cat : Category) :
    ∃ tl, ((runAdds r calls).get cat).children =
      (r.get cat).children ++ tl := by
  induction calls generalizing r with
  | nil => exact ⟨[], by simp [runAdds]⟩
  | cons c cs ih =>
    rcases applyAdd_children_suffix r c cat with ⟨t1, h1⟩
    rcases ih (applyAdd r c) with ⟨t2, h2⟩
    refine ⟨t1 ++ t2, ?_⟩
    have : runAdds r (c :: cs) = runAdds (applyAdd r c) cs := by
      simp [runAdds]
    rw [this, h2, h1, List.append_assoc]

/-- C2: re-running against an existing parseable output document never drops
an entry: after loading the prior document and applying any sequence of
`add_entry` calls, the prior document's children are a prefix of the result's
children (new entries are appended after all prior ones, in document order),
and every node of the prior document is still present. -/
theorem C2_rerun_superset (cfg : XmlConfig) (dir : OutDir) (cat : Category)
    (prior : Element) (hload : dir (cfg.fileFor cat) = some (.ok prior))
    (calls : List AddCall) :
    (∃ newEntries,
      ((runAdds (initializeRoots cfg dir) calls).get cat).children =
        prior.children ++ newEntries) ∧
    (∀ e ∈ prior.descendants,
      e ∈ ((runAdds (initializeRoots cfg dir) calls).get cat).descendants) := by
  have hone : loadRoot dir (cfg.fileFor cat) = prior := by
    unfold loadRoot
    rw [hload]
  have hinit : (initializeRoots cfg dir).get cat = prior := by
    cases cat <;> simpa [initializeRoots, Roots.get, XmlConfig.fileFor]
      using hone
  rcases runAdds_children_suffix calls (initializeRoots cfg dir) cat with
    ⟨tl, htl⟩
  rw [hinit] at htl
  refine ⟨⟨tl, htl⟩, fun e he => ?_⟩
  rw [descendants_eq, htl, descList_append]
  rw [descendants_eq] at he
  exact List.mem_append_left _ he

/-- Witness for C2: a prior external document with one entry, reloaded and
extended by one run adding a new file, keeps the prior entry first. -/
theorem C2_rerun_superset_witness :
    (∃ newEntries,
      ((runAdds (initializeRoots ⟨"e.xml", "i.xml", "c.xml"⟩
          (fun _ => some (.ok (Element.mk "Root" [] none none
            [Element.mk "entry" [("filename", "old.pdf")] (some "old text")
              none []]))))
          [⟨.external, "new.pdf", "new text", []⟩]).get .external).children =
        (Element.mk "Root" [] none none
          [Element.mk "entry" [("filename", "old.pdf")] (some "old text")
            none []]).children ++ newEntries) ∧
    (∀ e ∈ (Element.mk "Root" [] none none
        [Element.mk "entry" [("filename", "old.pdf")] (some "old text")
          none []]).descendants,
      e ∈ ((runAdds (initializeRoots ⟨"e.xml", "i.xml", "c.xml"⟩
          (fun _ => some (.ok (Element.mk "Root" [] none none
            [Element.mk "entry" [("filename", "old.pdf")] (some "old text")
              none []]))))
          [⟨.external, "new.pdf", "new text", []⟩]).get
            .external).descendants) :=
  C2_rerun_superset ⟨"e.xml", "i.xml", "c.xml"⟩ _ .external _ rfl _

theorem indentElem_childless (lvl : Nat) (t : String)
    (a : List (String × String)) (tx tlo : Option String) :
    ∃ tl, indentElem lvl (.mk t a tx tlo []) = .mk t a tx tl [] := by
  refine ⟨if (decide (lvl ≠ 0) && pyFalsyText tlo) = true then
    some ("\n" ++ String.join (List.replicate lvl "  ")) else tlo, ?_⟩
  rw [indentElem]
  simp

theorem indentList_childless (lvl : Nat) (cs : List Element)
    (h : ∀ c ∈ cs, c.children = []) :
    ∀ x ∈ indentList lvl cs, x.children = [] := by
  induction cs with
  | nil => simp [indentList]
  | cons c rest ih =>
    intro x hx
    cases c with
    | mk t a tx tlo cs' =>
      have hc : cs' = [] := by
        have hh := h (Element.mk t a tx tlo cs') (by simp)
        simpa using hh
      subst hc
      rcases indentElem_childless lvl t a tx tlo with ⟨tl, htl⟩
      rw [indentList, htl] at hx
      rcases List.mem_cons.mp hx with hx | hx
      · rw [hx]
        rfl
      · exact ih (fun y hy => h y (by simp [hy])) x hx

theorem entryDataList_indentList (lvl : Nat) (cs : List Element)
    (h : ∀ c ∈ cs, c.children = []) :
    ((indentList lvl cs).filter (fun e => e.tag == "entry")).map
        (fun e => (e.attrs, e.text)) =
      (cs.filter (fun e => e.tag == "entry")).map
        (fun e => (e.attrs, e.text)) := by
  induction cs with
  | nil => rfl
  | cons c rest ih =>
    cases c with
    | mk t a tx tlo cs' =>
      have hc : cs' = [] := by
        have hh := h (Element.mk t a tx tlo cs') (by simp)
        simpa using hh
      subst hc
      rcases indentElem_childless lvl t a tx tlo with ⟨tl, htl⟩
      have ihr := ih (fun y hy => h y (by simp [hy]))
      by_cases ht : (t == "entry") = true
      · simp [indentList, htl, List.filter_cons, ht, ihr]
      · rw [Bool.not_eq_true] at ht
        simp [indentList, htl, List.filter_cons, ht, ihr]

theorem entryData_indent (e : Element)
    (h : ∀ c ∈ e.children, c.children = []) :
    entryData (indentElem 0 e) = entryData e := by
  cases e with
  | mk t a tx tlo cs =>
    rw [Element.children] at h
    by_cases hcs : cs.length ≠ 0
    · have hres : indentElem 0 (.mk t a tx tlo cs) =
          .mk t a (if pyFalsyText tx = true then
            some ("\n" ++ String.join (List.replicate 0 "  ") ++ "  ")
            else tx)
          (if pyFalsyText (if pyFalsyText tlo = true then
              some ("\n" ++ String.join (List.replicate 0 "  ")) else tlo) =
              true then
            some ("\n" ++ String.join (List.replicate 0 "  "))
            else (if pyFalsyText tlo = true then
              some ("\n" ++ String.join (List.replicate 0 "  ")) else tlo))
          (indentList 1 cs) := by
        rw [indentElem, if_pos hcs]
      rw [hres]
      unfold entryData
      rw [descendants_eq, descendants_eq]
      simp only [Element.children]
      rw [descList_of_childless _ (indentList_childless 1 cs h),
        descList_of_childless _ h]
      exact entryDataList_indentList 1 cs h
    · push_neg at hcs
      rw [List.length_eq_zero] at hcs
      subst hcs
      rcases indentElem_childless 0 t a tx tlo with ⟨tl, htl⟩
      rw [htl]
      unfold entryData
      rw [descendants_eq, descendants_eq]
      rfl

theorem initialize_after_save (cfg : XmlConfig) (r : Roots) (dir : OutDir)
    (h12 : cfg.external_file ≠ cfg.internal_file)
    (h13 : cfg.external_file ≠ cfg.client_file)
    (h23 : cfg.internal_file ≠ cfg.client_file) :
    ∀ cat : Category, (initializeRoots cfg (save_all cfg r dir).2).get cat =
      indentElem 0 (r.get cat) := by
  intro cat
  have hb12 : (cfg.external_file == cfg.internal_file) = false :=
    beq_eq_false_iff_ne.mpr h12
  have hb13 : (cfg.external_file == cfg.client_file) = false :=
    beq_eq_false_iff_ne.mpr h13
  have hb23 : (cfg.internal_file == cfg.client_file) = false :=
    beq_eq_false_iff_ne.mpr h23
  cases cat <;>
    simp [initializeRoots, Roots.get, save_all, writeFile, loadRoot, hb12,
      hb13, hb23]

/-- C6: `save_all` followed by re-`initialize` from the same output location
(with the three configured filenames distinct) reproduces an equivalent
document for every category: the same entries in the same order, each with
the same attribute names and values and with its body text preserved
exactly, embedded newlines included.  The in-memory documents obey the
specified data model: entries are childless children of the root. -/
theorem C6_roundtrip (cfg : XmlConfig) (r : Roots) (dir : OutDir)
    (h12 : cfg.external_file ≠ cfg.internal_file)
    (h13 : cfg.external_file ≠ cfg.client_file)
    (h23 : cfg.internal_file ≠ cfg.client_file)
    (hwf : ∀ cat : Category, ∀ c ∈ (r.get cat).children, c.children = [])
    (cat : Category) :
    entryData ((initializeRoots cfg (save_all cfg r dir).2).get cat) =
      entryData (r.get cat) := by
  rw [initialize_after_save cfg r dir h12 h13 h23 cat,
    entryData_indent _ (hwf cat)]

/-- Witness for C6: an external document with one entry whose text has an
embedded newline survives the save/initialize round trip unchanged. -/
theorem C6_roundtrip_witness :
    entryData ((initializeRoots ⟨"e.xml", "i.xml", "c.xml"⟩
        (save_all ⟨"e.xml", "i.xml", "c.xml"⟩
          ⟨Element.mk "Root" [] none none
            [Element.mk "entry"
              [("filename", "a.pdf"), ("processed_date", "d")]
              (some "line1\nline2") none []], freshRoot, freshRoot⟩
          (fun _ => none)).2).get .external) =
      entryData ((⟨Element.mk "Root" [] none none
        [Element.mk "entry" [("filename", "a.pdf"), ("processed_date", "d")]
          (some "line1\nline2") none []], freshRoot, freshRoot⟩ :
            Roots).get .external) :=
  C6_roundtrip ⟨"e.xml", "i.xml", "c.xml"⟩ _ (fun _ => none) (by decide)
    (by decide) (by decide)
    (by intro cat; cases cat <;> simp [Roots.get, freshRoot]) .external

end Pipeline
